import Mathlib

/-!
Verification of the seat-allocation and aggregation engine of the
`elecciones-suigeneris` repository (`src/portal/views.py`, `src/elections/models.py`).

Python `Decimal` values (two-decimal percentages, their sums, differences and
quotients) are embedded as `ℚ`: for the magnitudes reachable in this program
(percentages with two decimals, divisors that are small integers) `Decimal`
arithmetic at the default 28-digit context is exact for sums/differences and
correctly rounded for quotients, so distinct rational quotients never collapse
and equal ones never separate; `ℚ` is therefore a faithful model.

Python `dict[int, Decimal]` values are embedded as association lists
`List (Int × ℚ)` in insertion order (dict iteration order is insertion order),
with distinct keys where the claim needs dict semantics.
-/

/-- Value of key `k` in an association list of rational votes; `0` when absent
(models `dict` access / `dict.get(k, 0)` on vote maps). -/
def lookupQ (m : List (Int × ℚ)) (k : Int) : ℚ :=
  match m with
  | [] => 0
  | p :: ps => if p.1 = k then p.2 else lookupQ ps k

/-- Value of key `k` in an association list of seat counts; `0` when absent
(models `allocation[k]` and `allocation.get(k, 0)`). -/
def lookupN (m : List (Int × ℕ)) (k : Int) : ℕ :=
  match m with
  | [] => 0
  | p :: ps => if p.1 = k then p.2 else lookupN ps k

/-- Increment the value at the first occurrence of key `k`
(models `allocation[best_list_id] += 1` on a dict, whose keys are unique). -/
def incr (k : Int) : List (Int × ℕ) → List (Int × ℕ)
  | [] => []
  | p :: ps => if p.1 = k then (p.1, p.2 + 1) :: ps else p :: incr k ps

/-- Set the value at the first occurrence of key `k`
(models `allocation[k] = v` on a dict, whose keys are unique). -/
def setAlloc (k : Int) (v : ℕ) : List (Int × ℕ) → List (Int × ℕ)
  | [] => []
  | p :: ps => if p.1 = k then (p.1, v) :: ps else p :: setAlloc k v ps

/-- Scan of CPython's `max(iterable, key=f)` loop: keep the current best,
replace it only when a strictly greater key value appears (so on ties the
earliest element wins). -/
def maxScan (f : Int → ℚ) (best : Int) : List Int → Int
  | [] => best
  | k :: ks => maxScan f (if f best < f k then k else best) ks

/-- Python's `max(l, key=f)`: the first element of `l` attaining the maximal
`f`-value, `none` on the empty list. -/
def firstMaxBy (f : Int → ℚ) : List Int → Option Int
  | [] => none
  | k :: ks => some (maxScan f k ks)

/-- The D'Hondt quotient `votes_by_list[pk] / (allocation[pk] + 1)` used as the
`key` function of one round. -/
def dhondtQuotient (votes : List (Int × ℚ)) (alloc : List (Int × ℕ)) (pk : Int) : ℚ :=
  lookupQ votes pk / ((lookupN alloc pk : ℚ) + 1)

/-- One round of the `for _ in range(seats)` loop of `_dhondt_allocation`:
pick the id maximizing the quotient (first maximum in dict iteration order)
and increment its seat count. -/
def dhondtRound (votes : List (Int × ℚ)) (alloc : List (Int × ℕ)) : List (Int × ℕ) :=
  match firstMaxBy (dhondtQuotient votes alloc) (votes.map Prod.fst) with
  | none => alloc
  | some best => incr best alloc

/-- The `for _ in range(seats)` loop of `_dhondt_allocation`: run `n` rounds. -/
def dhondtRounds (votes : List (Int × ℚ)) : ℕ → List (Int × ℕ) → List (Int × ℕ)
  | 0, alloc => alloc
  | n + 1, alloc => dhondtRounds votes n (dhondtRound votes alloc)

/-- `_dhondt_allocation` of `src/portal/views.py`: start from an all-zero
allocation over the input keys, return it unchanged when `seats <= 0`, the
map is empty, or the total votes are zero (`if not total_votes`), otherwise
run `seats` rounds. -/
def dhondt_allocation (votes : List (Int × ℚ)) (seats : Int) : List (Int × ℕ) :=
  let alloc0 := votes.map (fun p => (p.1, 0))
  if seats ≤ 0 ∨ votes = [] then alloc0
  else if (votes.map Prod.snd).sum = 0 then alloc0
  else dhondtRounds votes seats.toNat alloc0

/-- Total number of seats assigned by an allocation map. -/
def totalAlloc (m : List (Int × ℕ)) : ℕ := (m.map Prod.snd).sum

example : dhondt_allocation [(1, 50), (2, 30), (3, 20)] 6 = [(1, 3), (2, 2), (3, 1)] := by
  norm_num [dhondt_allocation, dhondtRounds, dhondtRound, dhondtQuotient, firstMaxBy, maxScan,
    lookupQ, lookupN, incr, List.cons_ne_nil]

example : dhondt_allocation [(1, 50)] (-1) = [(1, 0)] := by
  norm_num [dhondt_allocation]

example : dhondt_allocation [(2, 10), (1, 10)] 1 = [(2, 1), (1, 0)] := by
  norm_num [dhondt_allocation, dhondtRounds, dhondtRound, dhondtQuotient, firstMaxBy, maxScan,
    lookupQ, lookupN, incr, List.cons_ne_nil]

lemma totalAlloc_cons (p : Int × ℕ) (ps : List (Int × ℕ)) :
    totalAlloc (p :: ps) = p.2 + totalAlloc ps := by
  simp [totalAlloc]

lemma incr_keys (k : Int) : ∀ m : List (Int × ℕ), (incr k m).map Prod.fst = m.map Prod.fst
  | [] => rfl
  | p :: ps => by
    by_cases h : p.1 = k <;> simp [incr, h, incr_keys k ps]

lemma incr_total (k : Int) : ∀ m : List (Int × ℕ), k ∈ m.map Prod.fst →
    totalAlloc (incr k m) = totalAlloc m + 1
  | [], h => by simp at h
  | p :: ps, h => by
    by_cases hp : p.1 = k
    · simp only [incr, if_pos hp, totalAlloc_cons]
      ring
    · have hk : k ∈ ps.map Prod.fst := by
        rw [List.map_cons, List.mem_cons] at h
        rcases h with h1 | h1
        · exact absurd h1.symm hp
        · exact h1
      simp only [incr, if_neg hp, totalAlloc_cons, incr_total k ps hk]
      ring

lemma maxScan_mem (f : Int → ℚ) : ∀ (l : List Int) (b : Int), maxScan f b l ∈ b :: l
  | [], b => by simp [maxScan]
  | k :: ks, b => by
    by_cases hc : f b < f k
    · have h := maxScan_mem f ks k
      rw [maxScan, if_pos hc]
      rcases List.mem_cons.mp h with h1 | h1 <;> simp [h1]
    · have h := maxScan_mem f ks b
      rw [maxScan, if_neg hc]
      rcases List.mem_cons.mp h with h1 | h1 <;> simp [h1]

lemma dhondtRound_keys (votes : List (Int × ℚ)) (alloc : List (Int × ℕ)) :
    (dhondtRound votes alloc).map Prod.fst = alloc.map Prod.fst := by
  rw [dhondtRound]
  cases h : firstMaxBy (dhondtQuotient votes alloc) (votes.map Prod.fst) with
  | none => rfl
  | some best => exact incr_keys best alloc

lemma dhondtRound_total (votes : List (Int × ℚ)) (alloc : List (Int × ℕ))
    (hne : votes ≠ []) (hkeys : alloc.map Prod.fst = votes.map Prod.fst) :
    totalAlloc (dhondtRound votes alloc) = totalAlloc alloc + 1 := by
  obtain ⟨v, vs, rfl⟩ := List.exists_cons_of_ne_nil hne
  have hmem : maxScan (dhondtQuotient (v :: vs) alloc) v.1 (vs.map Prod.fst)
      ∈ (v :: vs).map Prod.fst := by
    simpa using maxScan_mem (dhondtQuotient (v :: vs) alloc) (vs.map Prod.fst) v.1
  rw [dhondtRound]
  simp only [List.map_cons, firstMaxBy]
  exact incr_total _ alloc (by rw [hkeys]; simpa using hmem)

lemma dhondtRounds_keys (votes : List (Int × ℚ)) :
    ∀ (n : ℕ) (alloc : List (Int × ℕ)),
      (dhondtRounds votes n alloc).map Prod.fst = alloc.map Prod.fst
  | 0, alloc => rfl
  | n + 1, alloc => by
    rw [dhondtRounds, dhondtRounds_keys votes n, dhondtRound_keys]

lemma dhondtRounds_total (votes : List (Int × ℚ)) (hne : votes ≠ []) :
    ∀ (n : ℕ) (alloc : List (Int × ℕ)),
      alloc.map Prod.fst = votes.map Prod.fst →
      totalAlloc (dhondtRounds votes n alloc) = totalAlloc alloc + n
  | 0, alloc, _ => rfl
  | n + 1, alloc, hkeys => by
    rw [dhondtRounds, dhondtRounds_total votes hne n _ (by rw [dhondtRound_keys, hkeys]),
      dhondtRound_total votes alloc hne hkeys]
    ring

lemma alloc0_keys (votes : List (Int × ℚ)) :
    (votes.map (fun p => (p.1, (0 : ℕ)))).map Prod.fst = votes.map Prod.fst := by
  simp

lemma alloc0_total (votes : List (Int × ℚ)) :
    totalAlloc (votes.map (fun p => (p.1, (0 : ℕ)))) = 0 := by
  induction votes with
  | nil => rfl
  | cons v vs ih => simp [totalAlloc_cons, ih]

/-- C1 (counterexample): with a negative requested seat count the total number
of assigned seats (zero) strictly exceeds the requested seats, so the claim
"never assigns more total seats than requested", read over every seats value,
fails at `seats = -1`. -/
theorem dhondt_allocation_negative_seats_exceeds :
    ¬ ((totalAlloc (dhondt_allocation [(1, (50 : ℚ))] (-1)) : ℤ) ≤ -1) := by
  norm_num [dhondt_allocation, totalAlloc]

/-- C1 (amended): for every vote map and every non-negative seats value,
`_dhondt_allocation` assigns a total never exceeding the requested seats, and
assigns exactly `seats` whenever `seats > 0`, the map is non-empty and the
total input votes are positive. -/
theorem dhondt_allocation_total_seats (votes : List (Int × ℚ)) (seats : Int)
    (h0 : 0 ≤ seats) :
    (totalAlloc (dhondt_allocation votes seats) : ℤ) ≤ seats ∧
    (0 < seats → votes ≠ [] → 0 < (votes.map Prod.snd).sum →
      (totalAlloc (dhondt_allocation votes seats) : ℤ) = seats) := by
  rw [dhondt_allocation]
  by_cases hdeg : seats ≤ 0 ∨ votes = []
  · rw [if_pos hdeg]
    constructor
    · rw [alloc0_total]
      exact_mod_cast h0
    · intro hs hne _
      rcases hdeg with h | h
      · exact absurd hs (not_lt.mpr h)
      · exact absurd h hne
  · rw [if_neg hdeg]
    push_neg at hdeg
    by_cases hz : (votes.map Prod.snd).sum = 0
    · rw [if_pos hz]
      constructor
      · rw [alloc0_total]
        exact_mod_cast h0
      · intro _ _ hpos
        exact absurd hz (ne_of_gt hpos)
    · rw [if_neg hz]
      have htot := dhondtRounds_total votes hdeg.2 seats.toNat
        (votes.map (fun p => (p.1, (0 : ℕ)))) (alloc0_keys votes)
      rw [htot, alloc0_total]
      have : ((seats.toNat : ℕ) : ℤ) = seats := Int.toNat_of_nonneg h0
      constructor
      · simp [this]
      · intro _ _ _
        simp [this]

/-- C1 (witness): at votes `{1: 50, 2: 30}` and 3 seats the hypotheses hold and
the allocation assigns exactly 3 seats in total. -/
theorem dhondt_allocation_total_seats_witness :
    (0 : ℤ) ≤ 3 ∧ (totalAlloc (dhondt_allocation [(1, (50 : ℚ)), (2, 30)] 3) : ℤ) = 3 := by
  refine ⟨by norm_num, ?_⟩
  exact (dhondt_allocation_total_seats [(1, (50 : ℚ)), (2, 30)] 3 (by norm_num)).2
    (by norm_num) (by simp) (by norm_num)

/-- C9: the allocation returned by `_dhondt_allocation` has exactly the key
sequence of the input map, and in the degenerate cases (`seats <= 0`, empty
input, zero total votes) every id maps to 0. -/
theorem dhondt_allocation_key_set (votes : List (Int × ℚ)) (seats : Int) :
    (dhondt_allocation votes seats).map Prod.fst = votes.map Prod.fst ∧
    ((seats ≤ 0 ∨ votes = [] ∨ (votes.map Prod.snd).sum = 0) →
      ∀ p ∈ dhondt_allocation votes seats, p.2 = 0) := by
  constructor
  · rw [dhondt_allocation]
    by_cases hdeg : seats ≤ 0 ∨ votes = []
    · rw [if_pos hdeg, alloc0_keys]
    · rw [if_neg hdeg]
      by_cases hz : (votes.map Prod.snd).sum = 0
      · rw [if_pos hz, alloc0_keys]
      · rw [if_neg hz, dhondtRounds_keys, alloc0_keys]
  · intro hdeg p hp
    have hzero : dhondt_allocation votes seats = votes.map (fun p => (p.1, (0 : ℕ))) := by
      rw [dhondt_allocation]
      rcases hdeg with h | h | h
      · rw [if_pos (Or.inl h)]
      · rw [if_pos (Or.inr h)]
      · by_cases hdeg2 : seats ≤ 0 ∨ votes = []
        · rw [if_pos hdeg2]
        · rw [if_neg hdeg2, if_pos h]
    rw [hzero] at hp
    obtain ⟨q, _, rfl⟩ := List.mem_map.mp hp
    rfl

/-- C9 (witness): at the degenerate input `{5: 0}` with 2 seats the key set is
preserved and the only id maps to 0. -/
theorem dhondt_allocation_key_set_witness :
    (dhondt_allocation [(5, (0 : ℚ))] 2).map Prod.fst = [5] ∧
    ∀ p ∈ dhondt_allocation [(5, (0 : ℚ))] 2, p.2 = 0 := by
  constructor
  · simpa using (dhondt_allocation_key_set [(5, (0 : ℚ))] 2).1
  · exact (dhondt_allocation_key_set [(5, (0 : ℚ))] 2).2 (Or.inr (Or.inr (by simp)))

lemma maxScan_spec (f : Int → ℚ) : ∀ (l : List Int) (b : Int),
    (maxScan f b l = b ∧ ∀ x ∈ l, f x ≤ f b) ∨
    (∃ l1 l2, l = l1 ++ maxScan f b l :: l2 ∧ f b < f (maxScan f b l) ∧
      (∀ x ∈ l1, f x < f (maxScan f b l)) ∧ (∀ x ∈ l2, f x ≤ f (maxScan f b l)))
  | [], b => Or.inl ⟨rfl, by simp⟩
  | k :: ks, b => by
    by_cases hc : f b < f k
    · have H := maxScan_spec f ks k
      rw [maxScan, if_pos hc]
      rcases H with ⟨heq, hall⟩ | ⟨l1, l2, hsplit, hlt, hearlier, hlater⟩
      · right
        refine ⟨[], ks, ?_, ?_, ?_, ?_⟩
        · rw [heq]
          rfl
        · rw [heq]
          exact hc
        · intro x hx
          simp at hx
        · intro x hx
          rw [heq]
          exact hall x hx
      · right
        refine ⟨k :: l1, l2, ?_, hc.trans hlt, ?_, hlater⟩
        · rw [List.cons_append, ← hsplit]
        · intro x hx
          rcases List.mem_cons.mp hx with rfl | hx
          · exact hlt
          · exact hearlier x hx
    · have H := maxScan_spec f ks b
      rw [maxScan, if_neg hc]
      rcases H with ⟨heq, hall⟩ | ⟨l1, l2, hsplit, hlt, hearlier, hlater⟩
      · left
        refine ⟨heq, ?_⟩
        intro x hx
        rcases List.mem_cons.mp hx with rfl | hx
        · exact le_of_not_lt hc
        · exact hall x hx
      · right
        refine ⟨k :: l1, l2, ?_, hlt, ?_, hlater⟩
        · rw [List.cons_append, ← hsplit]
        · intro x hx
          rcases List.mem_cons.mp hx with rfl | hx
          · exact lt_of_le_of_lt (le_of_not_lt hc) hlt
          · exact hearlier x hx

/-- C2 (counterexample): votes `{2: 10, 1: 10}` (insertion order id 2 first),
one seat. The D'Hondt quotients of ids 1 and 2 tie, the claim says the lowest
id (1) must win regardless of insertion order, but the code's
`max(votes_by_list, key=...)` keeps the first maximum in dict iteration order,
so id 2 receives the seat and id 1 receives none. -/
theorem dhondt_allocation_tie_insertion_order :
    lookupN (dhondt_allocation [(2, (10 : ℚ)), (1, 10)] 1) 2 = 1 ∧
    lookupN (dhondt_allocation [(2, (10 : ℚ)), (1, 10)] 1) 1 = 0 := by
  norm_num [dhondt_allocation, dhondtRounds, dhondtRound, dhondtQuotient, firstMaxBy, maxScan,
    lookupQ, lookupN, incr, List.cons_ne_nil]

/-- C2 (amended): each round of `_dhondt_allocation` awards the seat to the
first id, in dict iteration (insertion) order, whose quotient is maximal; when
the map's insertion order is ascending in id, this is the quotient-maximizing
id that is least among all tied ids (lower id wins). -/
theorem dhondt_round_tie_lowest_id (votes : List (Int × ℚ)) (alloc : List (Int × ℕ))
    (hne : votes ≠ []) (hsorted : List.Sorted (· < ·) (votes.map Prod.fst)) :
    ∃ best, dhondtRound votes alloc = incr best alloc ∧
      best ∈ votes.map Prod.fst ∧
      (∀ k ∈ votes.map Prod.fst,
        dhondtQuotient votes alloc k ≤ dhondtQuotient votes alloc best) ∧
      (∀ k ∈ votes.map Prod.fst,
        dhondtQuotient votes alloc k = dhondtQuotient votes alloc best → best ≤ k) := by
  obtain ⟨v, vs, rfl⟩ := List.exists_cons_of_ne_nil hne
  set f := dhondtQuotient (v :: vs) alloc with hf
  set best := maxScan f v.1 (vs.map Prod.fst) with hbest
  have hround : dhondtRound (v :: vs) alloc = incr best alloc := by
    rw [dhondtRound]
    simp only [List.map_cons, firstMaxBy]
  have hmem : best ∈ (v :: vs).map Prod.fst := by
    simpa using maxScan_mem f (vs.map Prod.fst) v.1
  rw [List.map_cons] at hsorted
  have hpair := List.sorted_cons.mp hsorted
  refine ⟨best, hround, hmem, ?_, ?_⟩
  · intro k hk
    rcases maxScan_spec f (vs.map Prod.fst) v.1 with ⟨heq, hall⟩ |
      ⟨l1, l2, hsplit, hlt, hearlier, hlater⟩
    · rw [List.map_cons, List.mem_cons] at hk
      rcases hk with rfl | hk
      · rw [hbest, heq]
      · rw [hbest, heq]
        exact hall k hk
    · rw [← hbest] at hsplit hlt hearlier hlater
      rw [List.map_cons, List.mem_cons] at hk
      rcases hk with rfl | hk
      · exact le_of_lt hlt
      · rw [hsplit, List.mem_append, List.mem_cons] at hk
        rcases hk with hk | hk | hk
        · exact le_of_lt (hearlier k hk)
        · rw [hk]
        · exact hlater k hk
  · intro k hk htie
    rcases maxScan_spec f (vs.map Prod.fst) v.1 with ⟨heq, hall⟩ |
      ⟨l1, l2, hsplit, hlt, hearlier, hlater⟩
    · rw [List.map_cons, List.mem_cons] at hk
      rcases hk with rfl | hk
      · rw [hbest, heq]
      · rw [hbest, heq]
        exact le_of_lt (hpair.1 k hk)
    · rw [← hbest] at hsplit hlt hearlier hlater
      rw [List.map_cons, List.mem_cons] at hk
      rcases hk with rfl | hk
      · exact absurd htie (ne_of_lt hlt)
      · rw [hsplit, List.mem_append, List.mem_cons] at hk
        rcases hk with hk | hk | hk
        · exact absurd htie (ne_of_lt (hearlier k hk))
        · rw [hk]
        · have hsub : List.Pairwise (· < ·) (best :: l2) := by
            refine List.Pairwise.sublist ?_ hpair.2
            rw [hsplit]
            exact List.sublist_append_right l1 (best :: l2)
          exact le_of_lt ((List.pairwise_cons.mp hsub).1 k hk)

/-- C2 (witness): at the tied votes `{1: 10, 2: 10}` inserted in ascending id
order and the all-zero allocation, the round awards the seat to a
quotient-maximal id that is least among ties. -/
theorem dhondt_round_tie_lowest_id_witness :
    ([(1, (10 : ℚ)), (2, 10)] ≠ ([] : List (Int × ℚ))) ∧
    (∃ best, dhondtRound [(1, (10 : ℚ)), (2, 10)] [(1, 0), (2, 0)] =
        incr best [(1, 0), (2, 0)] ∧
      best ∈ [(1, (10 : ℚ)), (2, 10)].map Prod.fst ∧
      (∀ k ∈ [(1, (10 : ℚ)), (2, 10)].map Prod.fst,
        dhondtQuotient [(1, (10 : ℚ)), (2, 10)] [(1, 0), (2, 0)] k ≤
          dhondtQuotient [(1, (10 : ℚ)), (2, 10)] [(1, 0), (2, 0)] best) ∧
      (∀ k ∈ [(1, (10 : ℚ)), (2, 10)].map Prod.fst,
        dhondtQuotient [(1, (10 : ℚ)), (2, 10)] [(1, 0), (2, 0)] k =
          dhondtQuotient [(1, (10 : ℚ)), (2, 10)] [(1, 0), (2, 0)] best → best ≤ k)) :=
  ⟨by simp, dhondt_round_tie_lowest_id [(1, (10 : ℚ)), (2, 10)] [(1, 0), (2, 0)]
    (by simp) (by simp)⟩

/-- Threshold constant `MIN_PARTY_THRESHOLD = Decimal("3.00")`. -/
def MIN_PARTY_THRESHOLD : ℚ := 3

/-- Constant `TOTAL_PERCENTAGE = Decimal("100.00")`. -/
def TOTAL_PERCENTAGE : ℚ := 100

/-- Constant `PERCENT_TOLERANCE = Decimal("0.01")`. -/
def PERCENT_TOLERANCE : ℚ := 1/100

/-- Round a rational to the nearest integer, ties to even, as Python's
`Decimal` formatting (ROUND_HALF_EVEN) does. -/
def roundHalfEven (x : ℚ) : ℤ :=
  let f := ⌊x⌋
  if x - f < 1/2 then f
  else if x - f > 1/2 then f + 1
  else if f % 2 = 0 then f else f + 1

/-- The two-decimal display `f"{p:.2f}"` of a percentage, modelled as the
displayed value in hundredths. -/
def fmt2 (p : ℚ) : ℤ := roundHalfEven (100 * p)

/-- One result-list entry dict. Fields keep the dict keys of the source
(`passes_threshold` and `updated_at` are optional keys there, hence `Option`;
`percentage_display` is the displayed value in hundredths; absent
`percentage_display`/`share` keys are initialised to 0 and are overwritten by
the reconciler before use). -/
structure Entry where
  id : Option Int
  code : String
  name : String
  alignment : String
  percentage : ℚ
  seats : Int
  passes_threshold : Option Bool
  updated_at : Option Int
  percentage_display : ℤ
  share : ℚ
deriving DecidableEq, Repr

/-- The sentinel test of `_ensure_full_percentage`:
`entry.get("id") is None and entry.get("name") == "Otros"`. -/
def isOthersPlaceholder (e : Entry) : Bool :=
  decide (e.id = none ∧ e.name = "Otros")

/-- The synthetic entry appended by `_ensure_full_percentage` when the
percentages fall short and no placeholder exists. -/
def newOthersEntry (remainder : ℚ) (latest : Option Int) : Entry :=
  { id := none, code := "-", name := "Otros", alignment := "Otros",
    percentage := remainder, seats := 0, passes_threshold := some false,
    updated_at := latest, percentage_display := 0, share := 0 }

/-- The `existing_placeholder` branch of `_ensure_full_percentage`: add the
remainder to the percentage of the first placeholder entry and fill its
`updated_at` when it is missing; all other entries are untouched. -/
def bumpPlaceholder (remainder : ℚ) (latest : Option Int) : List Entry → List Entry
  | [] => []
  | e :: es =>
    if isOthersPlaceholder e then
      { e with percentage := e.percentage + remainder,
               updated_at := if e.updated_at = none then latest else e.updated_at } :: es
    else
      e :: bumpPlaceholder remainder latest es

/-- Sum of the `percentage` fields (`sum(entry.get("percentage", 0) ...)`). -/
def totalPct (entries : List Entry) : ℚ := (entries.map Entry.percentage).sum

/-- The remainder-distribution step of `_ensure_full_percentage`: when the
remainder exceeds the tolerance, feed it to the existing placeholder if one
exists, otherwise append a fresh "Otros" entry. -/
def closeEntries (entries : List Entry) (remainder : ℚ) (latest : Option Int) : List Entry :=
  if remainder > PERCENT_TOLERANCE then
    if entries.any isOthersPlaceholder then bumpPlaceholder remainder latest entries
    else entries ++ [newOthersEntry remainder latest]
  else entries

/-- The final loop of `_ensure_full_percentage`: set `percentage_display` and
`share` from the new total (share 0 when the new total is not positive). -/
def setDisplayShare (newTotal : ℚ) (e : Entry) : Entry :=
  if newTotal ≤ 0 then
    { e with percentage_display := fmt2 e.percentage, share := 0 }
  else
    { e with percentage_display := fmt2 e.percentage,
             share := e.percentage / newTotal * TOTAL_PERCENTAGE }

/-- `_ensure_full_percentage` of `src/portal/views.py` (the in-place mutation
of the entry list is modelled by returning the new list). -/
def ensure_full_percentage (entries : List Entry) (latest : Option Int) : List Entry :=
  if entries = [] then entries
  else
    (closeEntries entries (TOTAL_PERCENTAGE - totalPct entries) latest).map
      (setDisplayShare
        (totalPct (closeEntries entries (TOTAL_PERCENTAGE - totalPct entries) latest)))

/-- Helper entry used by concrete instantiations below. -/
def mkEntry (i : Option Int) (nm : String) (pct : ℚ) : Entry :=
  { id := i, code := "c", name := nm, alignment := nm, percentage := pct, seats := 0,
    passes_threshold := none, updated_at := none, percentage_display := 0, share := 0 }

lemma setDisplayShare_percentage (t : ℚ) (e : Entry) :
    (setDisplayShare t e).percentage = e.percentage := by
  rw [setDisplayShare]
  split <;> rfl

lemma totalPct_nil : totalPct [] = 0 := rfl

lemma totalPct_cons (e : Entry) (es : List Entry) :
    totalPct (e :: es) = e.percentage + totalPct es := by
  simp [totalPct]

lemma totalPct_append (l1 l2 : List Entry) :
    totalPct (l1 ++ l2) = totalPct l1 + totalPct l2 := by
  simp [totalPct]

lemma totalPct_map_setDisplayShare (t : ℚ) (l : List Entry) :
    totalPct (l.map (setDisplayShare t)) = totalPct l := by
  induction l with
  | nil => rfl
  | cons e es ih => simp [totalPct_cons, setDisplayShare_percentage, ih]

lemma bumpPlaceholder_total (r : ℚ) (latest : Option Int) :
    ∀ es : List Entry, es.any isOthersPlaceholder = true →
      totalPct (bumpPlaceholder r latest es) = totalPct es + r
  | [], h => by simp at h
  | e :: es, h => by
    by_cases he : isOthersPlaceholder e
    · rw [bumpPlaceholder, if_pos he]
      simp only [totalPct_cons]
      ring
    · rw [bumpPlaceholder, if_neg he]
      have htail : es.any isOthersPlaceholder = true := by
        rcases List.any_eq_true.mp h with ⟨x, hx, hxp⟩
        rcases List.mem_cons.mp hx with rfl | hx
        · exact absurd hxp he
        · exact List.any_eq_true.mpr ⟨x, hx, hxp⟩
      rw [totalPct_cons, totalPct_cons, bumpPlaceholder_total r latest es htail]
      ring

lemma closeEntries_total (entries : List Entry) (r : ℚ) (latest : Option Int) :
    totalPct (closeEntries entries r latest) =
      if r > PERCENT_TOLERANCE then totalPct entries + r else totalPct entries := by
  rw [closeEntries]
  by_cases hr : r > PERCENT_TOLERANCE
  · rw [if_pos hr, if_pos hr]
    by_cases hany : entries.any isOthersPlaceholder
    · rw [if_pos hany, bumpPlaceholder_total r latest entries hany]
    · rw [if_neg hany, totalPct_append]
      simp [totalPct_cons, totalPct_nil, newOthersEntry]
  · rw [if_neg hr, if_neg hr]

lemma totalPct_ensure (entries : List Entry) (latest : Option Int) (hne : entries ≠ []) :
    totalPct (ensure_full_percentage entries latest) =
      if TOTAL_PERCENTAGE - totalPct entries > PERCENT_TOLERANCE then TOTAL_PERCENTAGE
      else totalPct entries := by
  rw [ensure_full_percentage, if_neg hne, totalPct_map_setDisplayShare, closeEntries_total]
  by_cases h : TOTAL_PERCENTAGE - totalPct entries > PERCENT_TOLERANCE
  · rw [if_pos h, if_pos h]
    ring
  · rw [if_neg h, if_neg h]

/-- C3 (counterexample): two entries of 60.00% each (both within [0, 100]).
The reconciler only fills upward gaps, so the reconciled sum stays at 120.00,
outside the 100.00 ± 0.01 band the claim asserts. -/
theorem ensure_full_percentage_overshoot :
    totalPct (ensure_full_percentage [mkEntry (some 1) "A" 60, mkEntry (some 2) "B" 60] none)
      = 120 ∧
    ¬ (totalPct (ensure_full_percentage [mkEntry (some 1) "A" 60, mkEntry (some 2) "B" 60] none)
        ≤ TOTAL_PERCENTAGE + PERCENT_TOLERANCE) := by
  have htot : totalPct [mkEntry (some 1) "A" 60, mkEntry (some 2) "B" 60] = 120 := by
    norm_num [totalPct_cons, totalPct_nil, mkEntry]
  have h := totalPct_ensure [mkEntry (some 1) "A" 60, mkEntry (some 2) "B" 60] none (by simp)
  rw [htot, if_neg (by norm_num [TOTAL_PERCENTAGE, PERCENT_TOLERANCE])] at h
  refine ⟨h, ?_⟩
  rw [h]
  norm_num [TOTAL_PERCENTAGE, PERCENT_TOLERANCE]

/-- C3 (amended): for every non-empty entry list the reconciled percentage sum
is at least 100.00 − 0.01, and it lies within 100.00 ± 0.01 whenever the input
sum does not already exceed 100.00 + 0.01 (the reconciler closes upward gaps
exactly to 100.00 but never trims an overshoot). -/
theorem ensure_full_percentage_sum_band (entries : List Entry) (latest : Option Int)
    (hne : entries ≠ []) :
    TOTAL_PERCENTAGE - totalPct (ensure_full_percentage entries latest) ≤ PERCENT_TOLERANCE ∧
    (totalPct entries ≤ TOTAL_PERCENTAGE + PERCENT_TOLERANCE →
      TOTAL_PERCENTAGE - PERCENT_TOLERANCE ≤ totalPct (ensure_full_percentage entries latest) ∧
      totalPct (ensure_full_percentage entries latest)
        ≤ TOTAL_PERCENTAGE + PERCENT_TOLERANCE) := by
  rw [totalPct_ensure entries latest hne]
  by_cases h : TOTAL_PERCENTAGE - totalPct entries > PERCENT_TOLERANCE
  · rw [if_pos h]
    norm_num [TOTAL_PERCENTAGE, PERCENT_TOLERANCE]
  · rw [if_neg h]
    push_neg at h
    simp only [TOTAL_PERCENTAGE, PERCENT_TOLERANCE] at *
    constructor
    · linarith
    · intro hle
      constructor <;> linarith

/-- C3 (witness): a single entry at 50.00% satisfies the hypotheses, and the
reconciled sum lands inside the band. -/
theorem ensure_full_percentage_sum_band_witness :
    ([mkEntry (some 1) "A" 50] ≠ ([] : List Entry)) ∧
    TOTAL_PERCENTAGE - totalPct (ensure_full_percentage [mkEntry (some 1) "A" 50] none)
      ≤ PERCENT_TOLERANCE ∧
    totalPct (ensure_full_percentage [mkEntry (some 1) "A" 50] none)
      ≤ TOTAL_PERCENTAGE + PERCENT_TOLERANCE := by
  have h := ensure_full_percentage_sum_band [mkEntry (some 1) "A" 50] none (by simp)
  have hin : totalPct [mkEntry (some 1) "A" 50] ≤ TOTAL_PERCENTAGE + PERCENT_TOLERANCE := by
    norm_num [totalPct_cons, totalPct_nil, mkEntry, TOTAL_PERCENTAGE, PERCENT_TOLERANCE]
  exact ⟨by simp, h.1, (h.2 hin).2⟩

lemma bumpPlaceholder_length (r : ℚ) (latest : Option Int) :
    ∀ es : List Entry, (bumpPlaceholder r latest es).length = es.length
  | [] => rfl
  | e :: es => by
    by_cases he : isOthersPlaceholder e
    · rw [bumpPlaceholder, if_pos he]
      rfl
    · rw [bumpPlaceholder, if_neg he]
      simp [bumpPlaceholder_length r latest es]

lemma closeEntries_length (entries : List Entry) (r : ℚ) (latest : Option Int) :
    entries.length ≤ (closeEntries entries r latest).length ∧
    (closeEntries entries r latest).length ≤ entries.length + 1 := by
  rw [closeEntries]
  by_cases hr : r > PERCENT_TOLERANCE
  · rw [if_pos hr]
    by_cases hany : entries.any isOthersPlaceholder
    · rw [if_pos hany, bumpPlaceholder_length]
      exact ⟨le_refl _, Nat.le_succ _⟩
    · rw [if_neg hany]
      simp
  · rw [if_neg hr]
    exact ⟨le_refl _, Nat.le_succ _⟩

lemma closeEntries_ne_nil (entries : List Entry) (r : ℚ) (latest : Option Int)
    (hne : entries ≠ []) : closeEntries entries r latest ≠ [] := by
  intro hnil
  have h1 := (closeEntries_length entries r latest).1
  rw [hnil] at h1
  simp at h1
  exact hne h1

lemma sDS_idem (t : ℚ) (e : Entry) :
    setDisplayShare t (setDisplayShare t e) = setDisplayShare t e := by
  cases e
  by_cases h : t ≤ 0 <;> simp [setDisplayShare, h]

lemma map_setDisplayShare_idem (t : ℚ) (l : List Entry) :
    (l.map (setDisplayShare t)).map (setDisplayShare t) = l.map (setDisplayShare t) := by
  rw [List.map_map]
  exact List.map_congr_left (fun e _ => sDS_idem t e)

/-- C6: the Reconciler is idempotent: running `_ensure_full_percentage` on its
own output (with any second `latest_update`) returns the output unchanged; in
particular every entry's `percentage` and `seats` are untouched and
`percentage_display`/`share` are recomputed to the identical values. -/
theorem ensure_full_percentage_idempotent (entries : List Entry) (latest latest' : Option Int) :
    ensure_full_percentage (ensure_full_percentage entries latest) latest' =
      ensure_full_percentage entries latest := by
  by_cases hne : entries = []
  · subst hne
    simp [ensure_full_percentage]
  · have hE : ensure_full_percentage entries latest =
        (closeEntries entries (TOTAL_PERCENTAGE - totalPct entries) latest).map
          (setDisplayShare
            (totalPct (closeEntries entries (TOTAL_PERCENTAGE - totalPct entries) latest))) := by
      rw [ensure_full_percentage, if_neg hne]
    have hEne : ensure_full_percentage entries latest ≠ [] := by
      rw [hE]
      intro h
      exact closeEntries_ne_nil entries _ latest hne (List.map_eq_nil_iff.mp h)
    have hband :
        ¬ (TOTAL_PERCENTAGE - totalPct (ensure_full_percentage entries latest)
            > PERCENT_TOLERANCE) := by
      rw [totalPct_ensure entries latest hne]
      by_cases h : TOTAL_PERCENTAGE - totalPct entries > PERCENT_TOLERANCE
      · rw [if_pos h]
        norm_num [TOTAL_PERCENTAGE, PERCENT_TOLERANCE]
      · rw [if_neg h]
        exact h
    have htE : totalPct (ensure_full_percentage entries latest) =
        totalPct (closeEntries entries (TOTAL_PERCENTAGE - totalPct entries) latest) := by
      rw [hE, totalPct_map_setDisplayShare]
    rw [ensure_full_percentage, if_neg hEne]
    rw [closeEntries, if_neg hband, htE, hE, map_setDisplayShare_idem]

/-- Fields of an entry that the claim says `_ensure_full_percentage` leaves
unchanged on entries whose id is not `None`. -/
def framePres (e e2 : Entry) : Prop :=
  e2.percentage = e.percentage ∧ e2.seats = e.seats ∧ e2.name = e.name ∧
  e2.code = e.code ∧ e2.alignment = e.alignment ∧ e2.updated_at = e.updated_at

lemma framePres_setDisplayShare (t : ℚ) (e : Entry) : framePres e (setDisplayShare t e) := by
  by_cases h : t ≤ 0 <;> simp [setDisplayShare, h, framePres]

lemma bumpPlaceholder_getElem (r : ℚ) (latest : Option Int) :
    ∀ (es : List Entry) (i : ℕ) (hi : i < es.length)
      (ho : i < (bumpPlaceholder r latest es).length),
      es[i].id ≠ none → (bumpPlaceholder r latest es)[i] = es[i]
  | [], i, hi, _, _ => absurd hi (by simp)
  | e :: es, i, hi, ho, hid => by
    by_cases he : isOthersPlaceholder e
    · simp only [bumpPlaceholder, if_pos he]
      cases i with
      | zero =>
        exfalso
        rw [List.getElem_cons_zero] at hid
        exact hid (of_decide_eq_true he).1
      | succ n =>
        rw [List.getElem_cons_succ, List.getElem_cons_succ]
    · simp only [bumpPlaceholder, if_neg he]
      cases i with
      | zero =>
        rw [List.getElem_cons_zero, List.getElem_cons_zero]
      | succ n =>
        have hi' : n < es.length := by
          simp only [List.length_cons] at hi
          omega
        have ho' : n < (bumpPlaceholder r latest es).length := by
          rw [bumpPlaceholder_length]
          exact hi'
        rw [List.getElem_cons_succ] at hid
        rw [List.getElem_cons_succ, List.getElem_cons_succ]
        exact bumpPlaceholder_getElem r latest es n hi' ho' hid

lemma closeEntries_getElem (entries : List Entry) (r : ℚ) (latest : Option Int)
    (i : ℕ) (hi : i < entries.length) (ho : i < (closeEntries entries r latest).length)
    (hid : entries[i].id ≠ none) :
    (closeEntries entries r latest)[i] = entries[i] := by
  simp only [closeEntries] at ho ⊢
  by_cases hr : r > PERCENT_TOLERANCE
  · simp only [if_pos hr] at ho ⊢
    by_cases hany : entries.any isOthersPlaceholder
    · simp only [if_pos hany] at ho ⊢
      exact bumpPlaceholder_getElem r latest entries i hi ho hid
    · simp only [if_neg hany] at ho ⊢
      rw [List.getElem_append_left]
  · simp only [if_neg hr]

/-- C10: the Reconciler removes no entry and appends at most one; every entry
whose id is not `None` keeps its `percentage`, `seats`, `name`, `code`,
`alignment` and `updated_at` (only `percentage_display` and `share` are
rewritten). -/
theorem ensure_full_percentage_frame_effect (entries : List Entry) (latest : Option Int) :
    entries.length ≤ (ensure_full_percentage entries latest).length ∧
    (ensure_full_percentage entries latest).length ≤ entries.length + 1 ∧
    ∀ (i : ℕ) (hi : i < entries.length)
      (ho : i < (ensure_full_percentage entries latest).length),
      entries[i].id ≠ none →
      framePres entries[i] (ensure_full_percentage entries latest)[i] := by
  by_cases hne : entries = []
  · subst hne
    refine ⟨by simp [ensure_full_percentage], by simp [ensure_full_percentage], ?_⟩
    intro i hi
    simp at hi
  · have hE : ensure_full_percentage entries latest =
        (closeEntries entries (TOTAL_PERCENTAGE - totalPct entries) latest).map
          (setDisplayShare
            (totalPct (closeEntries entries (TOTAL_PERCENTAGE - totalPct entries) latest))) := by
      rw [ensure_full_percentage, if_neg hne]
    refine ⟨?_, ?_, ?_⟩
    · rw [hE, List.length_map]
      exact (closeEntries_length entries _ latest).1
    · rw [hE, List.length_map]
      exact (closeEntries_length entries _ latest).2
    · intro i hi ho hid
      have hoY : i < (closeEntries entries (TOTAL_PERCENTAGE - totalPct entries) latest).length := by
        rw [hE, List.length_map] at ho
        exact ho
      have hYget := closeEntries_getElem entries (TOTAL_PERCENTAGE - totalPct entries) latest
        i hi hoY hid
      have hmap : (ensure_full_percentage entries latest)[i] =
          setDisplayShare
            (totalPct (closeEntries entries (TOTAL_PERCENTAGE - totalPct entries) latest))
            ((closeEntries entries (TOTAL_PERCENTAGE - totalPct entries) latest)[i]) := by
        simp only [hE]
        rw [List.getElem_map]
      rw [hmap, hYget]
      exact framePres_setDisplayShare _ _

/-- C10 (witness): on a one-entry list with id 1 the entry's protected fields
survive the reconciliation. -/
theorem ensure_full_percentage_frame_effect_witness :
    framePres (mkEntry (some 1) "A" 40)
      ((ensure_full_percentage [mkEntry (some 1) "A" 40] none).getD 0 (mkEntry (some 1) "A" 40)) := by
  have h := ensure_full_percentage_frame_effect [mkEntry (some 1) "A" 40] none
  have ho : 0 < (ensure_full_percentage [mkEntry (some 1) "A" 40] none).length :=
    lt_of_lt_of_le (by norm_num) h.1
  have h3 := h.2.2 0 (by norm_num) ho (by simp [mkEntry])
  rw [List.getD_eq_getElem _ _ ho]
  simpa using h3

/-- The sort key of `_senate_allocation`:
`sorted(votes_by_list.items(), key=lambda item: (-item[1], item[0]))`, i.e.
`a` comes before `b` when `a` has more votes, or equal votes and lower id. -/
def senateRel (a b : Int × ℚ) : Prop :=
  b.2 < a.2 ∨ (a.2 = b.2 ∧ a.1 ≤ b.1)

instance senateRelDecidable : DecidableRel senateRel := fun a b => by
  unfold senateRel
  infer_instance

instance senateRelTotal : IsTotal (Int × ℚ) senateRel := by
  constructor
  intro a b
  rcases lt_trichotomy a.2 b.2 with h | h | h
  · exact Or.inr (Or.inl h)
  · rcases le_total a.1 b.1 with hle | hle
    · exact Or.inl (Or.inr ⟨h, hle⟩)
    · exact Or.inr (Or.inr ⟨h.symm, hle⟩)
  · exact Or.inl (Or.inl h)

instance senateRelTrans : IsTrans (Int × ℚ) senateRel := by
  constructor
  intro a b c hab hbc
  rcases hab with hab | ⟨hab1, hab2⟩
  · rcases hbc with hbc | ⟨hbc1, hbc2⟩
    · exact Or.inl (hbc.trans hab)
    · exact Or.inl (hbc1 ▸ hab)
  · rcases hbc with hbc | ⟨hbc1, hbc2⟩
    · exact Or.inl (by rw [hab1]; exact hbc)
    · exact Or.inr ⟨hab1.trans hbc1, hab2.trans hbc2⟩

/-- The seat awards of `_senate_allocation` once the sorted list is known:
`min(seats, 2)` to the top item, then `min(remaining, 1)` to the second item
when seats remain and a second list exists. (Since the ids in a dict are
unique, the sort key is injective on the items and any correct sort produces
the same ordered list as Python's stable `sorted`.) -/
def senateAward (votes : List (Int × ℚ)) (seats : Int) (top : Int × ℚ)
    (rest : List (Int × ℚ)) : List (Int × ℕ) :=
  match rest with
  | [] => setAlloc top.1 (min seats 2).toNat (votes.map (fun p => (p.1, 0)))
  | second :: _ =>
    if seats - min seats 2 > 0 then
      setAlloc second.1 (min (seats - min seats 2) 1).toNat
        (setAlloc top.1 (min seats 2).toNat (votes.map (fun p => (p.1, 0))))
    else
      setAlloc top.1 (min seats 2).toNat (votes.map (fun p => (p.1, 0)))

/-- `_senate_allocation` of `src/portal/views.py`: all-zero allocation when
`seats <= 0` or no list, otherwise 2 seats (capped by `seats`) to the simple
majority and 1 to the first minority when a seat remains. -/
def senate_allocation (votes : List (Int × ℚ)) (seats : Int) : List (Int × ℕ) :=
  if seats ≤ 0 ∨ votes = [] then votes.map (fun p => (p.1, 0))
  else
    match List.insertionSort senateRel votes with
    | [] => votes.map (fun p => (p.1, 0))
    | top :: rest => senateAward votes seats top rest

example : senate_allocation [(1, 55), (2, 35), (3, 10)] 3 = [(1, 2), (2, 1), (3, 0)] := by
  norm_num [senate_allocation, senateAward, senateRel, setAlloc, List.insertionSort,
    List.orderedInsert, List.cons_ne_nil]
  rfl

lemma setAlloc_keys (k : Int) (v : ℕ) :
    ∀ m : List (Int × ℕ), (setAlloc k v m).map Prod.fst = m.map Prod.fst
  | [] => rfl
  | p :: ps => by
    by_cases h : p.1 = k <;> simp [setAlloc, h, setAlloc_keys k v ps]

lemma lookupN_alloc0 (votes : List (Int × ℚ)) (k : Int) :
    lookupN (votes.map (fun p => (p.1, 0))) k = 0 := by
  induction votes with
  | nil => rfl
  | cons v vs ih =>
    rw [List.map_cons, lookupN]
    by_cases h : v.1 = k
    · rw [if_pos h]
    · rw [if_neg h]
      exact ih

lemma lookupN_setAlloc_self (k : Int) (v : ℕ) :
    ∀ m : List (Int × ℕ), k ∈ m.map Prod.fst → lookupN (setAlloc k v m) k = v
  | [], h => by simp at h
  | p :: ps, h => by
    by_cases hp : p.1 = k
    · rw [setAlloc, if_pos hp, lookupN, if_pos hp]
    · have hk : k ∈ ps.map Prod.fst := by
        rw [List.map_cons, List.mem_cons] at h
        rcases h with h1 | h1
        · exact absurd h1.symm hp
        · exact h1
      rw [setAlloc, if_neg hp, lookupN, if_neg hp]
      exact lookupN_setAlloc_self k v ps hk

lemma lookupN_setAlloc_other (k k' : Int) (v : ℕ) (h : k' ≠ k) :
    ∀ m : List (Int × ℕ), lookupN (setAlloc k v m) k' = lookupN m k'
  | [] => rfl
  | p :: ps => by
    by_cases hp : p.1 = k
    · rw [setAlloc, if_pos hp, lookupN, lookupN]
      have : ¬ p.1 = k' := by
        rw [hp]
        exact fun hh => h hh.symm
      rw [if_neg this, if_neg this]
    · rw [setAlloc, if_neg hp, lookupN, lookupN]
      by_cases hp' : p.1 = k'
      · rw [if_pos hp', if_pos hp']
      · rw [if_neg hp', if_neg hp']
        exact lookupN_setAlloc_other k k' v h ps

lemma setAlloc_total (k : Int) (v : ℕ) :
    ∀ m : List (Int × ℕ), k ∈ m.map Prod.fst →
      totalAlloc (setAlloc k v m) + lookupN m k = totalAlloc m + v
  | [], h => by simp at h
  | p :: ps, h => by
    by_cases hp : p.1 = k
    · rw [setAlloc, if_pos hp, totalAlloc_cons, totalAlloc_cons, lookupN, if_pos hp]
      ring
    · have hk : k ∈ ps.map Prod.fst := by
        rw [List.map_cons, List.mem_cons] at h
        rcases h with h1 | h1
        · exact absurd h1.symm hp
        · exact h1
      rw [setAlloc, if_neg hp, totalAlloc_cons, totalAlloc_cons, lookupN, if_neg hp]
      have := setAlloc_total k v ps hk
      omega

/-- C4 (counterexample): with exactly 2 seats the top list absorbs both
(`min(seats, 2) = 2`), no seat remains, and the second-ranked list receives 0,
not the claimed exactly 1; and with one list and a negative seat count the
code returns 0 rather than `min(seats, 2)` (which is negative). -/
theorem senate_allocation_two_seats_no_second :
    lookupN (senate_allocation [(1, (60 : ℚ)), (2, 40)] 2) 2 = 0 ∧
    ¬ ((lookupN (senate_allocation [(1, (60 : ℚ))] (-1)) 1 : Int) = min (-1) 2) := by
  constructor
  · norm_num [senate_allocation, senateAward, senateRel, setAlloc, lookupN,
      List.insertionSort, List.orderedInsert, List.cons_ne_nil]
  · norm_num [senate_allocation, lookupN]

/-- C4 (amended): with `seats >= 2`, at least two lists (distinct ids) and the
sorted order starting `top, second, ...`, `_senate_allocation` gives `top`
exactly 2 seats and `second` exactly 1 when `seats >= 3` but 0 when
`seats = 2`, for a total of `min(seats, 3)`; `top` is ranked highest
(greatest percentage, lowest id on ties). With exactly one list and
`seats >= 0` that list receives `min(seats, 2)` seats and no second award
occurs. -/
theorem senate_allocation_awards :
    (∀ (votes : List (Int × ℚ)) (seats : Int) (top second : Int × ℚ)
        (rest : List (Int × ℚ)),
      (votes.map Prod.fst).Nodup → 2 ≤ seats →
      List.insertionSort senateRel votes = top :: second :: rest →
      lookupN (senate_allocation votes seats) top.1 = 2 ∧
      lookupN (senate_allocation votes seats) second.1 = (if 3 ≤ seats then 1 else 0) ∧
      totalAlloc (senate_allocation votes seats) = (min seats 3).toNat ∧
      (∀ x ∈ votes, senateRel top x)) ∧
    (∀ (k : Int) (v : ℚ) (seats : Int), 0 ≤ seats →
      lookupN (senate_allocation [(k, v)] seats) k = (min seats 2).toNat ∧
      totalAlloc (senate_allocation [(k, v)] seats) = (min seats 2).toNat) := by
  constructor
  · intro votes seats top second rest hnodup hseats hord
    have hperm : List.Perm (List.insertionSort senateRel votes) votes :=
      List.perm_insertionSort senateRel votes
    have hne : votes ≠ [] := by
      intro h
      rw [h] at hord
      simp at hord
    have hnotdeg : ¬ (seats ≤ 0 ∨ votes = []) := by
      push_neg
      exact ⟨by omega, hne⟩
    have htopmem : top.1 ∈ votes.map Prod.fst := by
      have : top ∈ votes := hperm.mem_iff.mp (by rw [hord]; exact List.mem_cons_self _ _)
      exact List.mem_map_of_mem Prod.fst this
    have hsecmem : second.1 ∈ votes.map Prod.fst := by
      have : second ∈ votes := hperm.mem_iff.mp (by rw [hord]; simp)
      exact List.mem_map_of_mem Prod.fst this
    have hns : top.1 ≠ second.1 := by
      have hnod2 : ((List.insertionSort senateRel votes).map Prod.fst).Nodup :=
        ((hperm.map Prod.fst).nodup_iff).mpr hnodup
      rw [hord] at hnod2
      simp only [List.map_cons, List.nodup_cons] at hnod2
      intro h
      exact hnod2.1 (by rw [h]; simp)
    have hsorted := List.sorted_insertionSort senateRel votes
    rw [hord] at hsorted
    have htoprel : ∀ x ∈ votes, senateRel top x := by
      intro x hx
      have hxs : x ∈ top :: second :: rest := by
        rw [← hord]
        exact hperm.mem_iff.mpr hx
      rcases List.mem_cons.mp hxs with rfl | hxs
      · exact Or.inr ⟨rfl, le_refl _⟩
      · exact (List.sorted_cons.mp hsorted).1 x hxs
    have hmin2 : min seats 2 = 2 := min_eq_right hseats
    have htopmem0 : top.1 ∈ (votes.map (fun p => (p.1, (0 : ℕ)))).map Prod.fst := by
      rw [alloc0_keys]
      exact htopmem
    have hsecmem1 : second.1 ∈
        (setAlloc top.1 (2 : ℕ) (votes.map (fun p => (p.1, (0 : ℕ))))).map Prod.fst := by
      rw [setAlloc_keys, alloc0_keys]
      exact hsecmem
    have halloc : senate_allocation votes seats = senateAward votes seats top (second :: rest) := by
      rw [senate_allocation, if_neg hnotdeg, hord]
    rw [halloc]
    simp only [senateAward, hmin2]
    have ht2 : ((2 : Int)).toNat = 2 := rfl
    rw [ht2]
    by_cases h3 : seats - 2 > 0
    · have hseats3 : 3 ≤ seats := by omega
      have hm1 : min (seats - 2) 1 = 1 := min_eq_right (by omega)
      rw [if_pos h3, hm1]
      have ht1 : ((1 : Int)).toNat = 1 := rfl
      rw [ht1]
      have hlooktop :
          lookupN (setAlloc second.1 1 (setAlloc top.1 2
            (votes.map (fun p => (p.1, (0 : ℕ)))))) top.1 = 2 := by
        rw [lookupN_setAlloc_other second.1 top.1 1 hns,
          lookupN_setAlloc_self top.1 2 _ htopmem0]
      have hlooksec :
          lookupN (setAlloc second.1 1 (setAlloc top.1 2
            (votes.map (fun p => (p.1, (0 : ℕ)))))) second.1 = 1 :=
        lookupN_setAlloc_self second.1 1 _ hsecmem1
      have hT1 := setAlloc_total top.1 2 (votes.map (fun p => (p.1, (0 : ℕ)))) htopmem0
      rw [lookupN_alloc0, alloc0_total] at hT1
      have hT2 := setAlloc_total second.1 1
        (setAlloc top.1 2 (votes.map (fun p => (p.1, (0 : ℕ))))) hsecmem1
      rw [lookupN_setAlloc_other top.1 second.1 2 (Ne.symm hns), lookupN_alloc0] at hT2
      refine ⟨hlooktop, ?_, ?_, htoprel⟩
      · rw [hlooksec, if_pos hseats3]
      · have hmin3 : min seats 3 = 3 := min_eq_right hseats3
        rw [hmin3]
        omega
    · have hseats2 : seats = 2 := by omega
      rw [if_neg h3]
      have hlooktop :
          lookupN (setAlloc top.1 2 (votes.map (fun p => (p.1, (0 : ℕ))))) top.1 = 2 :=
        lookupN_setAlloc_self top.1 2 _ htopmem0
      have hlooksec :
          lookupN (setAlloc top.1 2 (votes.map (fun p => (p.1, (0 : ℕ))))) second.1 = 0 := by
        rw [lookupN_setAlloc_other top.1 second.1 2 (Ne.symm hns), lookupN_alloc0]
      have hT1 := setAlloc_total top.1 2 (votes.map (fun p => (p.1, (0 : ℕ)))) htopmem0
      rw [lookupN_alloc0, alloc0_total] at hT1
      refine ⟨hlooktop, ?_, ?_, htoprel⟩
      · rw [hlooksec, if_neg (by omega)]
      · rw [hseats2]
        have : min (2 : Int) 3 = 2 := by norm_num
        rw [this, ht2]
        omega
  · intro k v seats h0
    by_cases hz : seats ≤ 0
    · have hs0 : seats = 0 := le_antisymm hz h0
      subst hs0
      rw [senate_allocation, if_pos (Or.inl (le_refl 0))]
      constructor
      · simp [lookupN]
      · simp [totalAlloc]
    · have hnotdeg : ¬ (seats ≤ 0 ∨ [(k, v)] = ([] : List (Int × ℚ))) := by
        push_neg
        exact ⟨by omega, by simp⟩
      have hsort : List.insertionSort senateRel [(k, v)] = [(k, v)] := by
        simp
      rw [senate_allocation, if_neg hnotdeg, hsort]
      simp only [senateAward]
      have hmem : k ∈ ([(k, v)].map (fun p => (p.1, (0 : ℕ)))).map Prod.fst := by
        simp
      constructor
      · exact lookupN_setAlloc_self k _ _ hmem
      · have hT := setAlloc_total k (min seats 2).toNat _ hmem
        rw [lookupN_alloc0, alloc0_total] at hT
        omega

/-- C4 (witness): votes `{1: 60, 2: 40}` with 3 seats satisfy the hypotheses,
and the awards are 2 to list 1, 1 to list 2, total 3. -/
theorem senate_allocation_awards_witness :
    lookupN (senate_allocation [(1, (60 : ℚ)), (2, 40)] 3) 1 = 2 ∧
    lookupN (senate_allocation [(1, (60 : ℚ)), (2, 40)] 3) 2 = 1 ∧
    totalAlloc (senate_allocation [(1, (60 : ℚ)), (2, 40)] 3) = 3 := by
  have h := senate_allocation_awards.1 [(1, (60 : ℚ)), (2, 40)] 3 (1, 60) (2, 40) []
    (by simp) (by norm_num)
    (by norm_num [List.insertionSort, List.orderedInsert, senateRel])
  refine ⟨h.1, ?_, ?_⟩
  · have h2 := h.2.1
    rwa [if_pos (by norm_num)] at h2
  · have h2 := h.2.2.1
    rwa [show ((min (3 : Int) 3).toNat) = 3 from rfl] at h2

/-- One deputies-chamber list of a district together with its most recent
scrutiny record (the `election_list`/`scrutiny` pair of the dashboard loop).
`updated_at` is an integer timestamp: Django's `auto_now` field is never
null. -/
structure ScrutinyRow where
  id : Int
  code : String
  name : String
  national_alignment : String
  percentage : ℚ
  updated_at : Int
deriving DecidableEq, Repr

/-- Alignment resolution of the dashboard loop: strip `national_alignment`,
fall back to the list name when the result is blank. -/
def rowAlignment (r : ScrutinyRow) : String :=
  if r.national_alignment.trim = "" then r.name else r.national_alignment.trim

/-- The entry dict built for a shown list (id, code, name, alignment,
percentage, percentage_display, updated_at); `seats` is assigned later from
the allocation, the other fields start absent/zero. -/
def rowEntry (r : ScrutinyRow) : Entry :=
  { id := some r.id, code := r.code, name := r.name, alignment := rowAlignment r,
    percentage := r.percentage, seats := 0, passes_threshold := none,
    updated_at := some r.updated_at, percentage_display := fmt2 r.percentage, share := 0 }

/-- The running state of the dashboard's per-district deputies loop. -/
structure DepState where
  votes : List (Int × ℚ)
  eligible : List (Int × ℚ)
  entries : List Entry
  minorTotal : ℚ
  minorLatest : Option Int
  districtLatest : Option Int
deriving Repr

def depInit : DepState := ⟨[], [], [], 0, none, none⟩

/-- Latest-timestamp update `if cur is None or t > cur: cur = t`. -/
def optMax (cur : Option Int) (t : Int) : Option Int :=
  match cur with
  | none => some t
  | some x => if t > x then some t else some x

/-- One iteration of the dashboard's deputies loop (lines 175-217 of
`src/portal/views.py`, restricted to the deputies chamber): record the vote,
record it as eligible when at or above the threshold, either accumulate it as
a minor list (percentage strictly below the threshold) or append its entry,
and track the latest timestamps. -/
def depStep (st : DepState) (r : ScrutinyRow) : DepState :=
  { votes := st.votes ++ [(r.id, r.percentage)]
    eligible :=
      if r.percentage ≥ MIN_PARTY_THRESHOLD then st.eligible ++ [(r.id, r.percentage)]
      else st.eligible
    entries :=
      if r.percentage < MIN_PARTY_THRESHOLD then st.entries else st.entries ++ [rowEntry r]
    minorTotal :=
      if r.percentage < MIN_PARTY_THRESHOLD then st.minorTotal + r.percentage
      else st.minorTotal
    minorLatest :=
      if r.percentage < MIN_PARTY_THRESHOLD then optMax st.minorLatest r.updated_at
      else st.minorLatest
    districtLatest := optMax st.districtLatest r.updated_at }

def depFold (rows : List ScrutinyRow) : DepState := rows.foldl depStep depInit

/-- The aggregated "Otros" entry built after the loop when the minor total is
positive, timestamped `deputy_minor_latest_update or district_latest_update`. -/
def othersEntry (st : DepState) : Entry :=
  { id := none, code := "-", name := "Otros", alignment := "Otros",
    percentage := st.minorTotal, seats := 0, passes_threshold := none,
    updated_at := (match st.minorLatest with | some t => some t | none => st.districtLatest),
    percentage_display := fmt2 st.minorTotal, share := 0 }

/-- The seat-assignment loop: `entry["seats"] = allocation.get(list_id, 0)`
(an entry with `id = None` is never an allocation key, so it gets 0). -/
def assignSeats (alloc : List (Int × ℕ)) (e : Entry) : Entry :=
  { e with seats := (match e.id with | some i => (lookupN alloc i : Int) | none => 0) }

/-- The deputies part of the District Aggregator (dashboard lines 175-237):
run the loop, append the aggregated "Otros" entry when the minor total is
positive, allocate by D'Hondt over the eligible votes and assign seats. -/
def processDeputies (rows : List ScrutinyRow) (seats : Int) : List Entry :=
  (if (depFold rows).minorTotal > 0
    then (depFold rows).entries ++ [othersEntry (depFold rows)]
    else (depFold rows).entries).map
    (assignSeats (dhondt_allocation (depFold rows).eligible seats))

lemma depFold_eligible : ∀ (rows : List ScrutinyRow) (s0 : DepState),
    (rows.foldl depStep s0).eligible = s0.eligible ++
      ((rows.filter (fun r => decide (MIN_PARTY_THRESHOLD ≤ r.percentage))).map
        (fun r => (r.id, r.percentage)))
  | [], s0 => by simp
  | r :: rows, s0 => by
    rw [List.foldl_cons, depFold_eligible rows (depStep s0 r)]
    by_cases hr : MIN_PARTY_THRESHOLD ≤ r.percentage
    · rw [List.filter_cons_of_pos (by simpa using hr)]
      simp only [depStep, ge_iff_le, if_pos hr]
      rw [List.map_cons, List.append_cons, List.append_assoc]
      simp
    · rw [List.filter_cons_of_neg (by simpa using hr)]
      simp only [depStep, ge_iff_le, if_neg hr]

lemma depFold_entries : ∀ (rows : List ScrutinyRow) (s0 : DepState),
    (rows.foldl depStep s0).entries = s0.entries ++
      ((rows.filter (fun r => decide (MIN_PARTY_THRESHOLD ≤ r.percentage))).map rowEntry)
  | [], s0 => by simp
  | r :: rows, s0 => by
    rw [List.foldl_cons, depFold_entries rows (depStep s0 r)]
    by_cases hr : r.percentage < MIN_PARTY_THRESHOLD
    · rw [List.filter_cons_of_neg (by simpa using not_le.mpr hr)]
      simp only [depStep, if_pos hr]
    · rw [List.filter_cons_of_pos (by simpa using not_lt.mp hr)]
      simp only [depStep, if_neg hr]
      rw [List.map_cons, List.append_cons, List.append_assoc]
      simp

lemma depFold_minorTotal : ∀ (rows : List ScrutinyRow) (s0 : DepState),
    (rows.foldl depStep s0).minorTotal = s0.minorTotal +
      ((rows.filter (fun r => decide (r.percentage < MIN_PARTY_THRESHOLD))).map
        ScrutinyRow.percentage).sum
  | [], s0 => by simp
  | r :: rows, s0 => by
    rw [List.foldl_cons, depFold_minorTotal rows (depStep s0 r)]
    by_cases hr : r.percentage < MIN_PARTY_THRESHOLD
    · rw [List.filter_cons_of_pos (by simpa using hr)]
      simp only [depStep, if_pos hr, List.map_cons, List.sum_cons]
      ring
    · rw [List.filter_cons_of_neg (by simpa using hr)]
      simp only [depStep, if_neg hr]

lemma depFold_minorLatest : ∀ (rows : List ScrutinyRow) (s0 : DepState),
    (rows.foldl depStep s0).minorLatest =
      ((rows.filter (fun r => decide (r.percentage < MIN_PARTY_THRESHOLD))).map
        ScrutinyRow.updated_at).foldl optMax s0.minorLatest
  | [], s0 => by simp
  | r :: rows, s0 => by
    rw [List.foldl_cons, depFold_minorLatest rows (depStep s0 r)]
    by_cases hr : r.percentage < MIN_PARTY_THRESHOLD
    · rw [List.filter_cons_of_pos (by simpa using hr)]
      simp only [depStep, if_pos hr, List.map_cons, List.foldl_cons]
    · rw [List.filter_cons_of_neg (by simpa using hr)]
      simp only [depStep, if_neg hr]

lemma foldl_optMax_some : ∀ (ts : List Int) (x : Int),
    ∃ m, ts.foldl optMax (some x) = some m ∧ (m = x ∨ m ∈ ts) ∧ x ≤ m ∧ ∀ t ∈ ts, t ≤ m
  | [], x => ⟨x, rfl, Or.inl rfl, le_refl x, by simp⟩
  | t :: ts, x => by
    rw [List.foldl_cons]
    by_cases h : t > x
    · rw [show optMax (some x) t = some t by rw [optMax, if_pos h]]
      obtain ⟨m, hm, hmem, hle, hall⟩ := foldl_optMax_some ts t
      refine ⟨m, hm, ?_, le_of_lt (lt_of_lt_of_le h hle), ?_⟩
      · rcases hmem with rfl | hmem
        · exact Or.inr (List.mem_cons_self _ _)
        · exact Or.inr (List.mem_cons_of_mem _ hmem)
      · intro u hu
        rcases List.mem_cons.mp hu with rfl | hu
        · exact hle
        · exact hall u hu
    · rw [show optMax (some x) t = some x by rw [optMax, if_neg h]]
      obtain ⟨m, hm, hmem, hle, hall⟩ := foldl_optMax_some ts x
      refine ⟨m, hm, ?_, hle, ?_⟩
      · rcases hmem with rfl | hmem
        · exact Or.inl rfl
        · exact Or.inr (List.mem_cons_of_mem _ hmem)
      · intro u hu
        rcases List.mem_cons.mp hu with rfl | hu
        · exact le_trans (not_lt.mp h) hle
        · exact hall u hu

lemma foldl_optMax_none (ts : List Int) (hne : ts ≠ []) :
    ∃ m, ts.foldl optMax none = some m ∧ m ∈ ts ∧ ∀ t ∈ ts, t ≤ m := by
  obtain ⟨t, ts', rfl⟩ := List.exists_cons_of_ne_nil hne
  rw [List.foldl_cons, show optMax none t = some t from rfl]
  obtain ⟨m, hm, hmem, hle, hall⟩ := foldl_optMax_some ts' t
  refine ⟨m, hm, ?_, ?_⟩
  · rcases hmem with rfl | hmem
    · exact List.mem_cons_self _ _
    · exact List.mem_cons_of_mem _ hmem
  · intro u hu
    rcases List.mem_cons.mp hu with rfl | hu
    · exact hle
    · exact hall u hu

lemma assignSeats_id (alloc : List (Int × ℕ)) (e : Entry) :
    (assignSeats alloc e).id = e.id := rfl

/-- C5 (counterexample): a district with a single deputies list at 0.00%
(strictly below the 3.00% threshold). The claim says the minor percentages are
aggregated into a synthetic "Others" entry with seats 0, but the code only
creates that entry when `deputy_minor_total > 0`, so here the output contains
no entry at all. -/
theorem process_deputies_zero_minor_no_others :
    processDeputies [⟨1, "L1", "Lista Uno", "", 0, 5⟩] 3 = [] ∧
    (0 : ℚ) < MIN_PARTY_THRESHOLD := by
  constructor
  · norm_num [processDeputies, depFold, depStep, depInit, optMax, MIN_PARTY_THRESHOLD]
  · norm_num [MIN_PARTY_THRESHOLD]

lemma depFold_eligible_eq (rows : List ScrutinyRow) :
    (depFold rows).eligible =
      (rows.filter (fun r => decide (MIN_PARTY_THRESHOLD ≤ r.percentage))).map
        (fun r => (r.id, r.percentage)) := by
  rw [depFold, depFold_eligible rows depInit]
  simp [depInit]

lemma depFold_entries_eq (rows : List ScrutinyRow) :
    (depFold rows).entries =
      (rows.filter (fun r => decide (MIN_PARTY_THRESHOLD ≤ r.percentage))).map rowEntry := by
  rw [depFold, depFold_entries rows depInit]
  simp [depInit]

lemma depFold_minorTotal_eq (rows : List ScrutinyRow) :
    (depFold rows).minorTotal =
      ((rows.filter (fun r => decide (r.percentage < MIN_PARTY_THRESHOLD))).map
        ScrutinyRow.percentage).sum := by
  rw [depFold, depFold_minorTotal rows depInit]
  simp [depInit]

lemma depFold_minorLatest_eq (rows : List ScrutinyRow) :
    (depFold rows).minorLatest =
      ((rows.filter (fun r => decide (r.percentage < MIN_PARTY_THRESHOLD))).map
        ScrutinyRow.updated_at).foldl optMax none := by
  rw [depFold, depFold_minorLatest rows depInit]
  rfl

/-- C5 (amended): in the deputies pipeline of a district (lists with distinct
ids), every list strictly below the 3.00% threshold is excluded from the
eligible-vote map handed to the D'Hondt allocator and never appears as an
individual output entry; provided the minor percentages sum to a positive
total, the output contains exactly one synthetic entry with id `None`: name
"Otros", seats 0, percentage equal to the sum of the minor percentages, and
`updated_at` the most recent timestamp among the aggregated minor lists (the
fallback to the district's latest update is unreachable then, since a minor
list exists and every scrutiny carries a timestamp). When every minor list
reports 0.00% no aggregated entry is produced. -/
theorem process_deputies_minor_aggregation (rows : List ScrutinyRow) (seats : Int)
    (hnodup : (rows.map ScrutinyRow.id).Nodup) :
    (∀ r ∈ rows, r.percentage < MIN_PARTY_THRESHOLD →
      r.id ∉ ((depFold rows).eligible.map Prod.fst) ∧
      ∀ e ∈ processDeputies rows seats, e.id ≠ some r.id) ∧
    (0 < (depFold rows).minorTotal →
      ∃ o, (processDeputies rows seats).filter (fun e => e.id.isNone) = [o] ∧
        o.id = none ∧ o.name = "Otros" ∧ o.seats = 0 ∧
        o.percentage = ((rows.filter
          (fun r => decide (r.percentage < MIN_PARTY_THRESHOLD))).map
            ScrutinyRow.percentage).sum ∧
        ∃ m, o.updated_at = some m ∧
          m ∈ (rows.filter (fun r => decide (r.percentage < MIN_PARTY_THRESHOLD))).map
            ScrutinyRow.updated_at ∧
          ∀ t ∈ (rows.filter (fun r => decide (r.percentage < MIN_PARTY_THRESHOLD))).map
            ScrutinyRow.updated_at, t ≤ m) := by
  have hinj := List.inj_on_of_nodup_map hnodup
  constructor
  · intro r hr hminor
    constructor
    · rw [depFold_eligible_eq]
      intro hmem
      rw [List.map_map] at hmem
      obtain ⟨r2, hr2mem, hr2eq⟩ := List.mem_map.mp hmem
      have hr2rows := List.mem_of_mem_filter hr2mem
      have hr2thr : MIN_PARTY_THRESHOLD ≤ r2.percentage := by
        have := List.of_mem_filter hr2mem
        simpa using this
      have : r2 = r := hinj hr2rows hr hr2eq
      rw [this] at hr2thr
      exact absurd hr2thr (not_le.mpr hminor)
    · intro e he heq
      rw [processDeputies] at he
      obtain ⟨e0, he0, rfl⟩ := List.mem_map.mp he
      rw [assignSeats_id] at heq
      have he0' : e0 ∈ (depFold rows).entries ∨ e0 = othersEntry (depFold rows) := by
        by_cases hpos : (depFold rows).minorTotal > 0
        · rw [if_pos hpos] at he0
          rcases List.mem_append.mp he0 with h | h
          · exact Or.inl h
          · exact Or.inr (by simpa using h)
        · rw [if_neg hpos] at he0
          exact Or.inl he0
      rcases he0' with he0' | rfl
      · rw [depFold_entries_eq] at he0'
        obtain ⟨r2, hr2mem, hr2eq⟩ := List.mem_map.mp he0'
        have hr2rows := List.mem_of_mem_filter hr2mem
        have hr2thr : MIN_PARTY_THRESHOLD ≤ r2.percentage := by
          have := List.of_mem_filter hr2mem
          simpa using this
        have hid : r2.id = r.id := by
          have he0id : e0.id = some r2.id := by
            rw [← hr2eq]
            rfl
          rw [he0id] at heq
          exact Option.some.inj heq
        have : r2 = r := hinj hr2rows hr hid
        rw [this] at hr2thr
        exact absurd hr2thr (not_le.mpr hminor)
      · exact absurd heq (by rw [show (othersEntry (depFold rows)).id = none from rfl]; simp)
  · intro hpos
    have hminors_ne : rows.filter (fun r => decide (r.percentage < MIN_PARTY_THRESHOLD)) ≠ [] := by
      intro h
      rw [depFold_minorTotal_eq, h] at hpos
      simp at hpos
    have htimes_ne : ((rows.filter (fun r => decide (r.percentage < MIN_PARTY_THRESHOLD))).map
        ScrutinyRow.updated_at) ≠ [] := by
      simpa using hminors_ne
    obtain ⟨m, hmfold, hmmem, hmall⟩ := foldl_optMax_none _ htimes_ne
    have hlatest : (depFold rows).minorLatest = some m := by
      rw [depFold_minorLatest_eq]
      exact hmfold
    refine ⟨assignSeats (dhondt_allocation (depFold rows).eligible seats)
      (othersEntry (depFold rows)), ?_, rfl, rfl, ?_, ?_, m, ?_, hmmem, hmall⟩
    · rw [processDeputies, if_pos hpos, List.map_append, List.filter_append]
      have hleft : ((depFold rows).entries.map
          (assignSeats (dhondt_allocation (depFold rows).eligible seats))).filter
            (fun e => e.id.isNone) = [] := by
        rw [List.filter_eq_nil_iff]
        intro e he
        obtain ⟨e0, he0, rfl⟩ := List.mem_map.mp he
        rw [depFold_entries_eq] at he0
        obtain ⟨r2, _, rfl⟩ := List.mem_map.mp he0
        simp [assignSeats_id, rowEntry]
      rw [hleft, List.nil_append, List.map_cons, List.map_nil]
      rw [List.filter_cons_of_pos (by simp [assignSeats_id, othersEntry])]
      rfl
    · rfl
    · rw [show (assignSeats (dhondt_allocation (depFold rows).eligible seats)
        (othersEntry (depFold rows))).percentage = (depFold rows).minorTotal from rfl]
      rw [depFold_minorTotal_eq]
    · rw [show (assignSeats (dhondt_allocation (depFold rows).eligible seats)
        (othersEntry (depFold rows))).updated_at = (othersEntry (depFold rows)).updated_at
        from rfl]
      rw [othersEntry, hlatest]

/-- C5 (witness): a district with one major (50.00%) and one minor (1.00%)
deputies list and 3 seats: the output contains exactly one synthetic entry,
named "Otros" with 0 seats. -/
theorem process_deputies_minor_aggregation_witness :
    ((([⟨1, "a", "A", "", 50, 10⟩, ⟨2, "b", "B", "", 1, 20⟩] :
        List ScrutinyRow).map ScrutinyRow.id).Nodup) ∧
    (∃ o, ((processDeputies [⟨1, "a", "A", "", 50, 10⟩, ⟨2, "b", "B", "", 1, 20⟩] 3).filter
        (fun e => e.id.isNone) = [o]) ∧ o.name = "Otros" ∧ o.seats = 0) := by
  have hnodup : (([⟨1, "a", "A", "", 50, 10⟩, ⟨2, "b", "B", "", 1, 20⟩] :
      List ScrutinyRow).map ScrutinyRow.id).Nodup := by
    simp
  have hpos : 0 < (depFold [⟨1, "a", "A", "", 50, 10⟩, ⟨2, "b", "B", "", 1, 20⟩]).minorTotal := by
    norm_num [depFold, depStep, depInit, optMax, MIN_PARTY_THRESHOLD]
  obtain ⟨o, ho1, _, ho3, ho4, _⟩ :=
    (process_deputies_minor_aggregation
      [⟨1, "a", "A", "", 50, 10⟩, ⟨2, "b", "B", "", 1, 20⟩] 3 hnodup).2 hpos
  exact ⟨hnodup, o, ho1, ho3, ho4⟩

/-- A district's contribution to the national deputies aggregation:
`voter_base = Decimal(district.registered_voters or 0)` (a non-negative
integer) and the chamber's entry list `deputy_data["lists"]`. -/
structure DistrictData where
  voterBase : ℕ
  lists : List Entry
deriving Repr

/-- The national accumulators of the dashboard: `overall_totals` (seats per
alignment, a `defaultdict(int)`), `overall_weighted_votes` (a
`defaultdict(Decimal)`) and `elector_totals` for one chamber. -/
structure NatAgg where
  totals : String → Int
  weighted : String → ℚ
  electors : ℕ

def natInit : NatAgg := ⟨fun _ => 0, fun _ => 0, 0⟩

/-- `overall_totals[chamber][alignment] += assigned` on a defaultdict. -/
def bumpTotals (t : String → Int) (a : String) (n : Int) : String → Int :=
  fun x => if x = a then t x + n else t x

/-- `overall_weighted_votes[chamber][alignment] += percentage * voter_base`. -/
def bumpWeighted (w : String → ℚ) (a : String) (q : ℚ) : String → ℚ :=
  fun x => if x = a then w x + q else w x

/-- One district's step of the National Aggregator (dashboard lines 233-256
for deputies): seats are accumulated per alignment for every district; the
elector denominator and the voter-weighted votes additionally require the
district to have chamber data (`has_deputy_data`) and a positive voter base.
In the source the seat accumulation runs just before the Reconciler and the
weighted accumulation just after; the only entry the Reconciler can append
carries `seats = 0`, so accumulating both over the reconciled `lists` yields
the same per-alignment seat totals as the source. -/
def natStep (acc : NatAgg) (d : DistrictData) : NatAgg :=
  { totals := d.lists.foldl (fun t e => bumpTotals t e.alignment e.seats) acc.totals
    weighted :=
      if d.lists ≠ [] ∧ 0 < d.voterBase then
        d.lists.foldl
          (fun w e => bumpWeighted w e.alignment (e.percentage * (d.voterBase : ℚ)))
          acc.weighted
      else acc.weighted
    electors :=
      if d.lists ≠ [] ∧ 0 < d.voterBase then acc.electors + d.voterBase else acc.electors }

def natFold (ds : List DistrictData) : NatAgg := ds.foldl natStep natInit

/-- The national share of an alignment (dashboard line 343):
`weighted_votes / deputy_denominator if deputy_denominator else Decimal("0")`. -/
def natShare (ds : List DistrictData) (a : String) : ℚ :=
  if (natFold ds).electors ≠ 0 then (natFold ds).weighted a / ((natFold ds).electors : ℚ)
  else 0

lemma foldl_bumpTotals (a : String) : ∀ (lists : List Entry) (t0 : String → Int),
    (lists.foldl (fun t e => bumpTotals t e.alignment e.seats) t0) a =
      t0 a + ((lists.filter (fun e => decide (e.alignment = a))).map Entry.seats).sum
  | [], t0 => by simp
  | e :: es, t0 => by
    rw [List.foldl_cons, foldl_bumpTotals a es]
    by_cases he : e.alignment = a
    · rw [List.filter_cons_of_pos (by simpa using he)]
      simp only [List.map_cons, List.sum_cons, bumpTotals]
      rw [if_pos he.symm]
      ring
    · rw [List.filter_cons_of_neg (by simpa using he)]
      simp only [bumpTotals]
      rw [if_neg (fun h => he h.symm)]

lemma natFold_totals (a : String) : ∀ (ds : List DistrictData) (acc : NatAgg),
    (ds.foldl natStep acc).totals a =
      acc.totals a + (ds.map (fun d =>
        ((d.lists.filter (fun e => decide (e.alignment = a))).map Entry.seats).sum)).sum
  | [], acc => by simp
  | d :: ds, acc => by
    rw [List.foldl_cons, natFold_totals a ds]
    have hstep : (natStep acc d).totals a = acc.totals a +
        ((d.lists.filter (fun e => decide (e.alignment = a))).map Entry.seats).sum :=
      foldl_bumpTotals a d.lists acc.totals
    rw [hstep, List.map_cons, List.sum_cons]
    ring

lemma natFold_electors : ∀ (ds : List DistrictData) (acc : NatAgg),
    (ds.foldl natStep acc).electors = acc.electors +
      ((ds.filter (fun d => decide (d.lists ≠ [] ∧ 0 < d.voterBase))).map
        DistrictData.voterBase).sum
  | [], acc => by simp
  | d :: ds, acc => by
    rw [List.foldl_cons, natFold_electors ds]
    by_cases hd : d.lists ≠ [] ∧ 0 < d.voterBase
    · rw [List.filter_cons_of_pos (by simpa using hd)]
      have hstep : (natStep acc d).electors = acc.electors + d.voterBase := by
        show (if d.lists ≠ [] ∧ 0 < d.voterBase then acc.electors + d.voterBase
          else acc.electors) = _
        rw [if_pos hd]
      rw [hstep, List.map_cons, List.sum_cons]
      omega
    · rw [List.filter_cons_of_neg (by simpa using hd)]
      have hstep : (natStep acc d).electors = acc.electors := by
        show (if d.lists ≠ [] ∧ 0 < d.voterBase then acc.electors + d.voterBase
          else acc.electors) = _
        rw [if_neg hd]
      rw [hstep]

/-- C7: when no district contributing deputies data has a positive
registered-voter count, the elector denominator for the chamber is 0, the
division is guarded so every alignment's national weighted share is 0, and the
per-alignment seat totals still equal the sums of entry seats across all
districts; in general the denominator counts exactly the districts that have
chamber data and a positive voter base. -/
theorem national_deputies_zero_denominator_guard (ds : List DistrictData)
    (hz : ∀ d ∈ ds, d.lists ≠ [] → d.voterBase = 0) :
    (natFold ds).electors = 0 ∧
    (∀ a, natShare ds a = 0) ∧
    (∀ a, (natFold ds).totals a = (ds.map (fun d =>
      ((d.lists.filter (fun e => decide (e.alignment = a))).map Entry.seats).sum)).sum) ∧
    (natFold ds).electors = ((ds.filter
      (fun d => decide (d.lists ≠ [] ∧ 0 < d.voterBase))).map DistrictData.voterBase).sum := by
  have hfe := natFold_electors ds natInit
  have hfilter : ds.filter (fun d => decide (d.lists ≠ [] ∧ 0 < d.voterBase)) = [] := by
    rw [List.filter_eq_nil_iff]
    intro d hd
    simp only [decide_eq_true_eq, not_and]
    intro h1 h2
    rw [hz d hd h1] at h2
    exact lt_irrefl 0 h2
  have he0 : (natFold ds).electors = 0 := by
    rw [natFold, hfe, hfilter]
    simp [natInit]
  refine ⟨he0, ?_, ?_, ?_⟩
  · intro a
    rw [natShare, if_neg (by simp [he0])]
  · intro a
    have h := natFold_totals a ds natInit
    rw [natFold, h]
    simp [natInit]
  · rw [natFold, hfe, hfilter]
    simp [natInit]

/-- C7 (witness): one district with deputies data but 0 registered voters:
the denominator is 0 and the weighted share of its alignment is 0. -/
theorem national_deputies_zero_denominator_guard_witness :
    (natFold [⟨0, [mkEntry (some 1) "X" 50]⟩]).electors = 0 ∧
    natShare [⟨0, [mkEntry (some 1) "X" 50]⟩] "X" = 0 := by
  have h := national_deputies_zero_denominator_guard [⟨0, [mkEntry (some 1) "X" 50]⟩]
    (by
      intro d hd _
      rcases List.mem_singleton.mp hd with rfl
      rfl)
  exact ⟨h.1, h.2.1 "X"⟩

/-- The `District` model of `src/elections/models.py` (snapshot fields). -/
structure District where
  name : String
  renewal_seats : Int
  total_deputies : Int
  registered_voters : Int
  senator_renewal_seats : Int
  total_senators : Int
deriving DecidableEq, Repr

/-- Modelled from the spec: snapshot construction of a `District`. The model
declares `renewal_seats`, `total_deputies`, `senator_renewal_seats` and
`total_senators` as `PositiveSmallIntegerField` and `registered_voters` as
`PositiveIntegerField` (`src/elections/models.py`); the Django validation
machinery that enforces those field types is framework code outside `src/`,
and spec §7 requires snapshot construction to reject negative values loudly
rather than clamp them. -/
def mkDistrict (name : String) (renewal_seats total_deputies registered_voters
    senator_renewal_seats total_senators : Int) : Except String District :=
  if renewal_seats < 0 ∨ total_deputies < 0 ∨ registered_voters < 0 ∨
      senator_renewal_seats < 0 ∨ total_senators < 0 then
    Except.error "negative value for a positive integer field"
  else
    Except.ok ⟨name, renewal_seats, total_deputies, registered_voters,
      senator_renewal_seats, total_senators⟩

/-- C8: snapshot construction fails loudly (returns an error, never clamps)
whenever a seat count is negative, and any successfully constructed district
has non-negative seat counts, so the allocators are only ever invoked with
non-negative seats under validated input. -/
theorem mkDistrict_rejects_negative_seats :
    (∀ (nm : String) (rs td rv srs ts : Int), rs < 0 ∨ srs < 0 →
      ∃ msg, mkDistrict nm rs td rv srs ts = Except.error msg) ∧
    (∀ (nm : String) (rs td rv srs ts : Int) (d : District),
      mkDistrict nm rs td rv srs ts = Except.ok d →
      0 ≤ d.renewal_seats ∧ 0 ≤ d.senator_renewal_seats) := by
  constructor
  · intro nm rs td rv srs ts h
    have hcond : rs < 0 ∨ td < 0 ∨ rv < 0 ∨ srs < 0 ∨ ts < 0 := by
      rcases h with h | h
      · exact Or.inl h
      · exact Or.inr (Or.inr (Or.inr (Or.inl h)))
    exact ⟨_, by rw [mkDistrict, if_pos hcond]⟩
  · intro nm rs td rv srs ts d hok
    rw [mkDistrict] at hok
    by_cases hneg : rs < 0 ∨ td < 0 ∨ rv < 0 ∨ srs < 0 ∨ ts < 0
    · rw [if_pos hneg] at hok
      exact absurd hok (by simp)
    · rw [if_neg hneg] at hok
      push_neg at hneg
      have hd : d = ⟨nm, rs, td, rv, srs, ts⟩ := (Except.ok.inj hok).symm
      rw [hd]
      exact ⟨hneg.1, hneg.2.2.2.1⟩

/-- C8 (witness): a district with `renewal_seats = -1` is rejected with an
error at snapshot construction. -/
theorem mkDistrict_rejects_negative_seats_witness :
    ((-1 : Int) < 0 ∨ (0 : Int) < 0) ∧
    (∃ msg, mkDistrict "Capital" (-1) 5 1000 0 3 = Except.error msg) := by
  refine ⟨Or.inl (by norm_num), ?_⟩
  exact mkDistrict_rejects_negative_seats.1 "Capital" (-1) 5 1000 0 3 (Or.inl (by norm_num))
